import Mathlib

/-!
Shallow embedding of the calendar event interchange subsystem of the
unifyer repository (src/pages/studio/tabs/CalendarTab.tsx, lines 915-1201,
and the identical parsing code in src/shared/services/calendarService.ts).
JavaScript strings are modelled as `List Char`; JavaScript `Date` values are
modelled symbolically by the constructor call that produced them; `NaN`
numbers are modelled as `none : Option Int`.
-/

set_option maxRecDepth 4096

/-! ### JavaScript string primitives -/

/-- Model of splitting on the regex `/\r\n|\n|\r/` (`content.split(...)`):
`\r\n` is tried first at each position, so a CRLF pair is one separator. -/
def splitLines : List Char → List (List Char)
  | [] => [[]]
  | c :: rest =>
    if c = '\r' then
      match rest with
      | [] => [] :: splitLines []
      | c2 :: rest2 =>
        if c2 = '\n' then [] :: splitLines rest2
        else [] :: splitLines (c2 :: rest2)
    else if c = '\n' then [] :: splitLines rest
    else
      match splitLines rest with
      | [] => [[c]]
      | l :: ls => (c :: l) :: ls

/-- Joining logical lines back into a document with `\n` separators
(used to state idempotence of unfolding on the rejoined output). -/
def joinNL : List (List Char) → List Char
  | [] => []
  | [l] => l
  | l :: l2 :: rest => l ++ '\n' :: joinNL (l2 :: rest)

/-- Model of `line.startsWith(' ') || line.startsWith('\t')`: the continuation-line test
of the folding loop. -/
def foldCont : List Char → Bool
  | [] => false
  | c :: _ => c = ' ' ∨ c = '\t'

/-- The folding loop of `parseICalContent` / `importICalEvents`:
`while (i+1 < lines.length && (lines[i+1].startsWith(' ') || lines[i+1].startsWith('\t')))
{ i++; line += lines[i].substring(1); }`. `cur` is the line being grown. -/
def unfoldGo (cur : List Char) : List (List Char) → List (List Char)
  | [] => [cur]
  | next :: rest =>
    if foldCont next then unfoldGo (cur ++ next.drop 1) rest
    else cur :: unfoldGo next rest

/-- Unfolding a raw line list into logical lines.  In the source this loop is
interleaved with the per-line dispatch; the dispatch neither affects nor
depends on the folding, so it is factored out here. -/
def unfoldLines : List (List Char) → List (List Char)
  | [] => []
  | l :: rest => unfoldGo l rest

/-- Model of `str.substring(a, b)`: both indices are clamped to the string length and
swapped if out of order, then the half-open slice is taken. -/
def jsSubstring (s : List Char) (a b : Nat) : List Char :=
  (s.take (max a b)).drop (min a b)

/-- Model of `str.endsWith(c)` for a single-character argument: the last character
equals `c`. -/
def jsEndsWith (s : List Char) (c : Char) : Bool :=
  match s.getLast? with
  | some d => d = c
  | none => false

/-- Model of `str.indexOf(':')` (first occurrence; `none` models `-1`). -/
def jsIndexOfColon (s : List Char) : Option Nat :=
  s.findIdx? (fun c => c = ':')

/-- Model of `haystack.includes(needle)`: substring containment test. -/
def jsIncludes (s pat : List Char) : Bool :=
  s.tails.any (fun t => pat.isPrefixOf t)

/-! ### JavaScript `parseInt` -/

/-- The ASCII whitespace characters skipped by `parseInt`. -/
def isWsChar (c : Char) : Bool :=
  c = ' ' ∨ c = '\t' ∨ c = '\n' ∨ c = '\r' ∨ c = '\x0b' ∨ c = '\x0c'

/-- Decimal digit test. -/
def isDecDigit (c : Char) : Bool := '0' ≤ c ∧ c ≤ '9'

/-- Value of a decimal digit character. -/
def decVal (c : Char) : Nat := c.toNat - 48

/-- Hexadecimal digit test. -/
def isHexDigit (c : Char) : Bool :=
  isDecDigit c ∨ ('a' ≤ c ∧ c ≤ 'f') ∨ ('A' ≤ c ∧ c ≤ 'F')

/-- Value of a hexadecimal digit character. -/
def hexVal (c : Char) : Nat :=
  if isDecDigit c then decVal c
  else if 'a' ≤ c ∧ c ≤ 'f' then c.toNat - 87
  else c.toNat - 55

/-- Accumulate the value of a leading run of digits, stopping at the first
non-digit (how `parseInt` consumes its input). -/
def digitsVal (isD : Char → Bool) (val : Char → Nat) (base : Nat) :
    Nat → List Char → Nat
  | acc, [] => acc
  | acc, c :: rest =>
    if isD c then digitsVal isD val base (acc * base + val c) rest else acc

/-- Unsigned part of `parseInt` with default radix: a leading `0x`/`0X`
switches to hexadecimal; `none` models `NaN` (no digits consumed). -/
def parseUnsigned : List Char → Option Nat
  | [] => none
  | [c] => if isDecDigit c then some (digitsVal isDecDigit decVal 10 0 [c]) else none
  | c :: c2 :: rest =>
    if c = '0' ∧ (c2 = 'x' ∨ c2 = 'X') then
      match rest with
      | [] => none
      | d :: _ => if isHexDigit d then some (digitsVal isHexDigit hexVal 16 0 rest) else none
    else if isDecDigit c then some (digitsVal isDecDigit decVal 10 0 (c :: c2 :: rest))
    else none

/-- Model of `parseInt(s)`: skip whitespace, optional sign, then digits;
`none` models `NaN`. -/
def jsParseInt (s : List Char) : Option Int :=
  match s.dropWhile isWsChar with
  | [] => none
  | c :: rest =>
    if c = '+' then (parseUnsigned rest).map (fun n => (n : Int))
    else if c = '-' then (parseUnsigned rest).map (fun n => -(n : Int))
    else (parseUnsigned (c :: rest)).map (fun n => (n : Int))

/-- Model of `x || 0` applied to a `parseInt` result: `NaN` becomes `0`
(and `0 || 0` is `0`, so a parsed value is always kept). -/
def jsOr0 : Option Int → Int
  | none => 0
  | some v => v

/-- Propagation of `NaN` through `- 1`, otherwise ordinary subtraction (the `- 1` applied to the
parsed month). -/
def jsSub1 : Option Int → Option Int :=
  Option.map (fun v => v - 1)

/-! ### Unescaping -/

/-- One global replacement `.replace(/ab/g, r)` of a two-character literal
pattern: left-to-right, non-overlapping, the replacement is not rescanned
within the same pass. -/
def replace2 (a b : Char) (r : List Char) : List Char → List Char
  | [] => []
  | [c] => [c]
  | c :: d :: rest =>
    if c = a ∧ d = b then r ++ replace2 a b r rest
    else c :: replace2 a b r (d :: rest)

/-- The function `unescapeValue` from `parseICalContent`
(CalendarTab.tsx lines 1119-1125): four sequential global replacements,
applied in the order `\n`, `\,`, `\;`, `\\`. -/
def unescapeValue (s : List Char) : List Char :=
  replace2 '\\' '\\' ['\\']
    (replace2 '\\' ';' [';']
      (replace2 '\\' ',' [',']
        (replace2 '\\' 'n' ['\n'] s)))

/-- Modelled from the spec (section 4.2), for comparison with the code:
a single left-to-right pass replacing exactly the four two-character escape
sequences and passing every other escape through unchanged, never rescanning
replaced output. -/
def specSinglePassUnescape : List Char → List Char
  | [] => []
  | c :: rest =>
    if c = '\\' then
      match rest with
      | [] => ['\\']
      | c2 :: rest2 =>
        if c2 = '\\' then '\\' :: specSinglePassUnescape rest2
        else if c2 = ',' then ',' :: specSinglePassUnescape rest2
        else if c2 = ';' then ';' :: specSinglePassUnescape rest2
        else if c2 = 'n' then '\n' :: specSinglePassUnescape rest2
        else '\\' :: c2 :: specSinglePassUnescape rest2
    else c :: specSinglePassUnescape rest

/-- No two consecutive backslashes occur in the string. -/
def noDoubleBackslash : List Char → Bool
  | [] => true
  | [_] => true
  | c :: c2 :: rest => !(c = '\\' ∧ c2 = '\\') && noDoubleBackslash (c2 :: rest)

/-! ### Data model (CalendarTab.tsx lines 916-944) -/

/-- The closed union of event types. -/
inductive EventType
  | exam | project | assignment | personal | imported | subscription
deriving DecidableEq, Repr

/-- A JavaScript `Date` value, modelled symbolically by the constructor call
that produced it.  `localD` is `new Date(y, mo, d, h, mi, s)` (omitted
arguments default to `0`), `utcD` is `new Date(Date.UTC(y, mo, d, h, mi, s))`.
The `mo` argument is the 0-based month.  `none` components model `NaN`
arguments (yielding an Invalid Date). -/
inductive JSDate
  | localD (y mo d h mi s : Option Int)
  | utcD (y mo d h mi s : Option Int)
deriving DecidableEq, Repr

/-- Whether a decoded instant is anchored to UTC or to the ambient local
timezone. -/
inductive TimeRef
  | utc | localT
deriving DecidableEq, Repr

/-- Calendar wall-clock fields (1-based month), for reading a `JSDate` the way
the spec describes it. -/
structure WallClock where
  y : Int
  mo : Int
  d : Int
  h : Int
  mi : Int
  s : Int
deriving DecidableEq, Repr

/-- The wall-clock fields and time reference denoted by a `JSDate` whose
arguments are all well-defined (the 0-based month argument is converted to a
1-based calendar month).  `none` if any argument was `NaN`. -/
def wallClockOf : JSDate → Option (WallClock × TimeRef)
  | JSDate.localD (some y) (some mo) (some d) (some h) (some mi) (some s) =>
    some (⟨y, mo + 1, d, h, mi, s⟩, TimeRef.localT)
  | JSDate.utcD (some y) (some mo) (some d) (some h) (some mi) (some s) =>
    some (⟨y, mo + 1, d, h, mi, s⟩, TimeRef.utc)
  | _ => none

/-- The type `EventFormData = Omit<CalendarEvent, 'id'>` built up as a
`Partial<EventFormData>` draft: every parsed field is optional
(`none` models `undefined`). -/
structure EventFormData where
  title : Option (List Char) := none
  description : Option (List Char) := none
  startDate : Option JSDate := none
  endDate : Option JSDate := none
  allDay : Option Bool := none
  type : EventType
  color : Option (List Char) := none
  courseId : Option (List Char) := none
  courseName : Option (List Char) := none
  location : Option (List Char) := none
  subscriptionUrl : Option (List Char) := none
deriving DecidableEq, Repr

/-- A stored `CalendarEvent`: an `EventFormData` plus the store-assigned
`id` (`{...eventData, id}` in `addEvent`). -/
structure CalendarEvent extends EventFormData where
  id : List Char
deriving DecidableEq, Repr

/-- The type `CalendarSubscription` (CalendarTab.tsx lines 932-939).  `lastSync` keeps
an abstract timestamp. -/
structure CalendarSubscription where
  id : List Char
  name : List Char
  url : List Char
  color : List Char
  lastSync : Option Int := none
  enabled : Bool
deriving DecidableEq, Repr

/-- JavaScript truthiness of an optional string: `undefined` and the empty
string are falsy. -/
def truthyStr : Option (List Char) → Bool
  | none => false
  | some s => s ≠ []

/-- Model of `color || '#6366f1'`-style defaulting: an absent or empty string falls
back to the default. -/
def jsOrStr (v : Option (List Char)) (dflt : List Char) : List Char :=
  match v with
  | none => dflt
  | some s => if s = [] then dflt else s

/-! ### Date/time decoder (`parseDate` in CalendarTab.tsx lines 1101-1117,
identical to `parseICalDate` in calendarService.ts lines 126-147) -/

/-- Model of `parts.some(p => p === 'VALUE=DATE')`. -/
def isDateOnlyParam (parts : List (List Char)) : Bool :=
  parts.any (fun p => p = "VALUE=DATE".toList)

/-- The date/time decoder.  For `VALUE=DATE` tokens: `new Date(y, m-1, d)`.
Otherwise hour/minute/second come from fixed substring positions with
`parseInt(...) || 0` defaulting, and a trailing `Z` selects
`new Date(Date.UTC(...))` over `new Date(...)`. -/
def parseICalDate (value : List Char) (keyParts : List (List Char)) : JSDate :=
  let year := jsParseInt (jsSubstring value 0 4)
  let month := jsSub1 (jsParseInt (jsSubstring value 4 6))
  let day := jsParseInt (jsSubstring value 6 8)
  if isDateOnlyParam keyParts then
    JSDate.localD year month day (some 0) (some 0) (some 0)
  else
    let hour := jsOr0 (jsParseInt (jsSubstring value 9 11))
    let minute := jsOr0 (jsParseInt (jsSubstring value 11 13))
    let second := jsOr0 (jsParseInt (jsSubstring value 13 15))
    if jsEndsWith value 'Z' then
      JSDate.utcD year month day (some hour) (some minute) (some second)
    else
      JSDate.localD year month day (some hour) (some minute) (some second)

/-! ### Event block parser (`parseICalContent`, CalendarTab.tsx
lines 1063-1149) -/

/-- The line `'BEGIN:VEVENT'` as a character list. -/
def beginVEVENT : List Char := "BEGIN:VEVENT".toList

/-- The line `'END:VEVENT'` as a character list. -/
def endVEVENT : List Char := "END:VEVENT".toList

/-- Property dispatch for one logical line while inside an event: split at the
first colon, split the key on `;`, and switch on the main key.  Lines without
a colon and unrecognized keys leave the draft unchanged. -/
def applyProp (line : List Char) (d : EventFormData) : EventFormData :=
  match jsIndexOfColon line with
  | none => d
  | some colonIndex =>
    let key := jsSubstring line 0 colonIndex
    let value := line.drop (colonIndex + 1)
    let keyParts := key.splitOn ';'
    let mainKey := keyParts.headD []
    if mainKey = "SUMMARY".toList then
      { d with title := some (unescapeValue value) }
    else if mainKey = "DESCRIPTION".toList then
      { d with description := some (unescapeValue value) }
    else if mainKey = "DTSTART".toList then
      { d with startDate := some (parseICalDate value keyParts),
               allDay := some (isDateOnlyParam keyParts) }
    else if mainKey = "DTEND".toList then
      { d with endDate := some (parseICalDate value keyParts) }
    else if mainKey = "LOCATION".toList then
      { d with location := some (unescapeValue value) }
    else d

/-- Whether a finished draft is emitted at `END:VEVENT`:
`currentEvent.title && currentEvent.startDate` (a set `Date` is always
truthy; a title is truthy iff set and non-empty). -/
def draftValid (d : EventFormData) : Bool :=
  truthyStr d.title && d.startDate.isSome

/-- The two-state line machine of `parseICalContent`: `none` models
outside-event (`currentEvent = null`), `some d` models inside-event.
`tag` is the fresh draft installed at each `BEGIN:VEVENT`.  Returns the
emitted events in order; a draft still open at end of input is discarded. -/
def stepLines (tag : EventFormData) :
    List (List Char) → Option EventFormData → List EventFormData
  | [], _ => []
  | line :: rest, st =>
    if line = beginVEVENT then stepLines tag rest (some tag)
    else
      match st with
      | some d =>
        if line = endVEVENT then
          (if draftValid d then [d] else []) ++ stepLines tag rest none
        else stepLines tag rest (some (applyProp line d))
      | none => stepLines tag rest none

/-- The machine state after consuming a line list (used to compose runs). -/
def stateAfter (tag : EventFormData) :
    List (List Char) → Option EventFormData → Option EventFormData
  | [], st => st
  | line :: rest, st =>
    if line = beginVEVENT then stateAfter tag rest (some tag)
    else
      match st with
      | some d =>
        if line = endVEVENT then stateAfter tag rest none
        else stateAfter tag rest (some (applyProp line d))
      | none => stateAfter tag rest none

/-- The fresh draft installed at `BEGIN:VEVENT`:
`{ type: subscriptionId ? 'subscription' : 'imported',
   color: color || '#6366f1', subscriptionUrl: subscriptionId }`. -/
def initialDraft (subscriptionId : Option (List Char))
    (color : Option (List Char)) : EventFormData :=
  { type := match subscriptionId with
            | some _ => EventType.subscription
            | none => EventType.imported,
    color := some (jsOrStr color "#6366f1".toList),
    subscriptionUrl := subscriptionId }

/-- Model of `parseICalContent(content, subscriptionId?, color?)`: split into raw
lines, unfold continuations, and run the event block machine from the
outside-event state. -/
def parseICalContent (content : List Char) (subscriptionId : Option (List Char))
    (color : Option (List Char)) : List EventFormData :=
  stepLines (initialDraft subscriptionId color)
    (unfoldLines (splitLines content)) none

/-! ### Event store and subscription sync
(CalendarTab.tsx lines 953-1201).  Browser storage is made explicit: the
stored event list and subscription list are passed and returned as values;
a storage write is modelled by returning the new list. -/

/-- Model of `addEvent` for one draft: an event appended to the store.
The generated id (`event_<timestamp>_<random>`) is supplied externally. -/
def withId (fd : EventFormData) (id : List Char) : CalendarEvent :=
  { fd with id := id }

/-- Sequential `addEvent` calls over a draft list: the `k`-th draft receives
the `k`-th fresh id from the generator `gen`. -/
def addAll (gen : Nat → List Char) : Nat → List EventFormData → List CalendarEvent
  | _, [] => []
  | k, fd :: rest => withId fd (gen k) :: addAll gen (k + 1) rest

/-- The replace-events step of `syncSubscription` (lines 1179-1186): drop
every stored event whose `subscriptionUrl` equals the subscription id, then
append the new drafts with fresh ids. -/
def replaceSubscriptionEvents (store : List CalendarEvent) (subId : List Char)
    (drafts : List EventFormData) (gen : Nat → List Char) : List CalendarEvent :=
  store.filter (fun e => e.subscriptionUrl ≠ some subId) ++ addAll gen 0 drafts

/-- Model of `deleteSubscription(id)` (lines 1030-1036): remove the subscription and
cascade-delete every event whose `subscriptionUrl` equals its id. -/
def deleteSubscription (subscriptions : List CalendarSubscription)
    (store : List CalendarEvent) (id : List Char) :
    List CalendarSubscription × List CalendarEvent :=
  (subscriptions.filter (fun s => s.id ≠ id),
   store.filter (fun e => e.subscriptionUrl ≠ some id))

/-- Model of `getEvents()` (lines 954-967).  The storage read is explicit
(`none` = key absent); `JSON.parse` plus the element shape under `.map` is
abstracted as a collaborator `decode` whose `none` result models a thrown
exception caught by the surrounding `try`; `hydrate` models the per-event
date rehydration.  `if (!stored) return []` also catches the empty string. -/
def getEventsFrom {α β : Type} (decode : List Char → Option (List α))
    (hydrate : α → β) (stored : Option (List Char)) : List β :=
  match stored with
  | none => []
  | some [] => []
  | some s =>
    match decode s with
    | none => []
    | some evs => evs.map hydrate

/-- The marker `'BEGIN:VCALENDAR'` checked by the sync engine. -/
def vcalMarker : List Char := "BEGIN:VCALENDAR".toList

/-- The errors `syncSubscription` can throw before touching the store. -/
inductive SyncError
  | networkError | invalidFormat
deriving DecidableEq, Repr

/-- Update the first subscription with the given id (`findIndex` + assign),
stamping `lastSync`. -/
def stampLastSync (subs : List CalendarSubscription) (id : List Char)
    (now : Int) : List CalendarSubscription :=
  match subs with
  | [] => []
  | s :: rest =>
    if s.id = id then { s with lastSync := some now } :: rest
    else s :: stampLastSync rest id now

/-- Model of `syncSubscription` (lines 1157-1201).  The network fetch is a
collaborator: `fetched = none` models a transport failure or non-2xx
response (both throw before any store access).  On success the function
returns the updated event store, the updated subscription list and the
newly stored events; on error it returns the untouched store and
subscription list, mirroring the fact that every `throw` in the source
happens before the first storage write. -/
def syncSubscription (fetched : Option (List Char)) (sub : CalendarSubscription)
    (store : List CalendarEvent) (subs : List CalendarSubscription)
    (gen : Nat → List Char) (now : Int) :
    Option SyncError × List CalendarEvent × List CalendarSubscription :=
  match fetched with
  | none => (some SyncError.networkError, store, subs)
  | some content =>
    if jsIncludes content vcalMarker = false then
      (some SyncError.invalidFormat, store, subs)
    else
      let parsed := parseICalContent content (some sub.id) (some sub.color)
      let newStore := replaceSubscriptionEvents store sub.id parsed gen
      (none, newStore, stampLastSync subs sub.id now)

/-! ### Auxiliary definitions used to state the claims -/

/-- Hour argument of the `Date` constructor call. -/
def hourArg : JSDate → Option Int
  | JSDate.localD _ _ _ h _ _ => h
  | JSDate.utcD _ _ _ h _ _ => h

/-- Minute argument of the `Date` constructor call. -/
def minuteArg : JSDate → Option Int
  | JSDate.localD _ _ _ _ mi _ => mi
  | JSDate.utcD _ _ _ _ mi _ => mi

/-- Second argument of the `Date` constructor call. -/
def secondArg : JSDate → Option Int
  | JSDate.localD _ _ _ _ _ s => s
  | JSDate.utcD _ _ _ _ _ s => s

/-- The decimal digit character for `n < 10`. -/
def digitChar : Nat → Char
  | 0 => '0' | 1 => '1' | 2 => '2' | 3 => '3' | 4 => '4'
  | 5 => '5' | 6 => '6' | 7 => '7' | 8 => '8' | _ => '9'

/-- Two-digit zero-padded rendering of `n < 100`. -/
def pad2 (n : Nat) : List Char := [digitChar (n / 10 % 10), digitChar (n % 10)]

/-- Four-digit zero-padded rendering of `n < 10000`. -/
def pad4 (n : Nat) : List Char :=
  [digitChar (n / 1000 % 10), digitChar (n / 100 % 10),
   digitChar (n / 10 % 10), digitChar (n % 10)]

/-- The well-formed 15-character date-time token `YYYYMMDDTHHMMSS`. -/
def dtToken (y mo d h mi s : Nat) : List Char :=
  pad4 y ++ (pad2 mo ++ (pad2 d ++ ('T' :: (pad2 h ++ (pad2 mi ++ pad2 s)))))

/-- A line free of carriage returns and line feeds (as all lines produced by
`splitLines` are). -/
def noCRLF (l : List Char) : Bool := l.all (fun c => !(c = '\r' ∨ c = '\n'))

/-- The `SUMMARY` value carried by one logical line, if the line parses to a
`SUMMARY` property (first colon split, key split on `;`, main key compare). -/
def lineSummaryValue (line : List Char) : Option (List Char) :=
  match jsIndexOfColon line with
  | none => none
  | some colonIndex =>
    if ((jsSubstring line 0 colonIndex).splitOn ';').headD [] = "SUMMARY".toList then
      some (line.drop (colonIndex + 1))
    else none

/-- The effective `SUMMARY` value of an event block: the value of the last
`SUMMARY` line (later occurrences of a property overwrite earlier ones). -/
def blockSummary (body : List (List Char)) : Option (List Char) :=
  body.foldl
    (fun acc l => match lineSummaryValue l with
                  | some v => some v
                  | none => acc) none

/-- The block carries a non-empty `SUMMARY`: its effective (last) `SUMMARY`
value is non-empty. -/
def blockHasNonEmptySummary (body : List (List Char)) : Bool :=
  match blockSummary body with
  | some v => v ≠ []
  | none => false

/-- Whether one logical line parses to a `DTSTART` property. -/
def lineIsDTSTART (line : List Char) : Bool :=
  match jsIndexOfColon line with
  | none => false
  | some colonIndex =>
    ((jsSubstring line 0 colonIndex).splitOn ';').headD [] = "DTSTART".toList

/-- The block carries a `DTSTART` property line. -/
def blockHasDTSTART (body : List (List Char)) : Bool :=
  body.any lineIsDTSTART

/-- Folding an event block body onto a draft, property line by property
line. -/
def foldBlock (tag : EventFormData) (body : List (List Char)) : EventFormData :=
  body.foldl (fun d l => applyProp l d) tag

/-- The exact input document of the end-to-end example. -/
def c1Input : List Char :=
  ("BEGIN:VCALENDAR\nBEGIN:VEVENT\nSUMMARY:Midterm\\, Calc III\nDTSTART;VALUE=DATE:20250522\nLOCATION:Main Hall A\nEND:VEVENT\nEND:VCALENDAR").toList

/-- The single event that document parses to. -/
def c1Event : EventFormData :=
  { title := some ("Midterm, Calc III").toList,
    startDate := some (JSDate.localD (some 2025) (some 4) (some 22)
      (some 0) (some 0) (some 0)),
    allDay := some true,
    type := EventType.imported,
    color := some ("#6366f1").toList,
    location := some ("Main Hall A").toList }

/-- A concrete subscription used to instantiate theorems with hypotheses. -/
def demoSub : CalendarSubscription :=
  { id := ['s'], name := ['S'], url := ['u'], color := ("#8b5cf6").toList,
    enabled := true }

/-- A concrete stored event not linked to `demoSub`. -/
def demoOtherEvent : CalendarEvent :=
  { title := some ['p'], type := EventType.personal, id := ['e', '1'] }

/-- A concrete draft tagged with `demoSub`'s id. -/
def demoLinkedDraft : EventFormData :=
  { title := some ['t'], type := EventType.subscription,
    subscriptionUrl := some ['s'] }

/-- A trivial fresh-id generator for instantiating theorems. -/
def demoGen : Nat → List Char := fun _ => ['i']

/-! ## Theorems -/

/-- C1: the exact seven-line example document parses to exactly one event
with title "Midterm, Calc III" (comma unescaped), allDay true, startDate the
local calendar date 2025-05-22 with no time component (a local midnight
`Date`), and location "Main Hall A". -/
theorem c1_example_document_parses :
    parseICalContent c1Input none none = [c1Event] ∧
    c1Event.title = some ("Midterm, Calc III").toList ∧
    c1Event.allDay = some true ∧
    c1Event.startDate = some (JSDate.localD (some 2025) (some 4) (some 22)
      (some 0) (some 0) (some 0)) ∧
    wallClockOf (JSDate.localD (some 2025) (some 4) (some 22)
      (some 0) (some 0) (some 0)) = some (⟨2025, 5, 22, 0, 0, 0⟩, TimeRef.localT) ∧
    c1Event.location = some ("Main Hall A").toList := by
  exact ⟨by decide, rfl, rfl, rfl, rfl, rfl⟩

/-- C2, counterexample: on the value `\\n` the code's `unescapeValue`
(sequential global replacements, `\n` pass first) yields backslash-newline,
while the single left-to-right pass required by the claim yields
backslash-`n`; so the claim as stated is false. -/
theorem c2_counterexample :
    unescapeValue ['\\', '\\', 'n'] = ['\\', '\n'] ∧
    specSinglePassUnescape ['\\', '\\', 'n'] = ['\\', 'n'] ∧
    unescapeValue ['\\', '\\', 'n'] ≠ specSinglePassUnescape ['\\', '\\', 'n'] := by
  exact ⟨by decide, by decide, by decide⟩

/-- C7: deleting a subscription removes from the event store every event
whose `subscriptionUrl` equals the subscription's id, removes no other
event, and leaves the surviving events unchanged and in order (the result
is a sublist of the original store). -/
theorem c7_deleteSubscription_cascade (subscriptions : List CalendarSubscription)
    (store : List CalendarEvent) (id : List Char) :
    (∀ e ∈ (deleteSubscription subscriptions store id).2,
       e.subscriptionUrl ≠ some id) ∧
    (∀ e ∈ store, e.subscriptionUrl ≠ some id →
       e ∈ (deleteSubscription subscriptions store id).2) ∧
    (deleteSubscription subscriptions store id).2.Sublist store := by
  refine ⟨?_, ?_, ?_⟩
  · intro e he
    have := List.of_mem_filter he
    simpa using this
  · intro e he hne
    exact List.mem_filter.2 ⟨he, by simpa using hne⟩
  · exact List.filter_sublist store

/-- Witness for C7 at a concrete store. -/
theorem c7_witness :
    ∀ e ∈ (deleteSubscription [demoSub] [demoOtherEvent] ['s']).2,
      e.subscriptionUrl ≠ some ['s'] :=
  (c7_deleteSubscription_cascade [demoSub] [demoOtherEvent] ['s']).1

/-- C8: for every token that is not `VALUE=DATE`, each of the hour, minute
and second components independently defaults to the real number 0 whenever
its own substring fails to parse (`parseInt` gives `NaN`), regardless of
the other components (the `|| 0` defaulting); the decoder itself is a total
function of the token and parameter list. -/
theorem c8_parseICalDate_defaults (value : List Char) (params : List (List Char))
    (hp : isDateOnlyParam params = false) :
    (jsParseInt (jsSubstring value 9 11) = none →
      hourArg (parseICalDate value params) = some 0) ∧
    (jsParseInt (jsSubstring value 11 13) = none →
      minuteArg (parseICalDate value params) = some 0) ∧
    (jsParseInt (jsSubstring value 13 15) = none →
      secondArg (parseICalDate value params) = some 0) := by
  refine ⟨?_, ?_, ?_⟩ <;> intro h <;> unfold parseICalDate <;> rw [hp, h] <;>
    cases hz : jsEndsWith value 'Z' <;>
      simp [hz, jsOr0, hourArg, minuteArg, secondArg]

/-- Witness for C8: in the 13-character token `20250615T0912` only the
seconds digits are missing; the hour and minute parse to 9 and 12, and the
second component alone defaults to real 0. -/
theorem c8_witness :
    isDateOnlyParam [] = false ∧
    jsParseInt (jsSubstring ("20250615T0912").toList 13 15) = none ∧
    hourArg (parseICalDate ("20250615T0912").toList []) = some 9 ∧
    minuteArg (parseICalDate ("20250615T0912").toList []) = some 12 ∧
    secondArg (parseICalDate ("20250615T0912").toList []) = some 0 := by
  have h := c8_parseICalDate_defaults ("20250615T0912").toList [] (by decide)
  exact ⟨by decide, by decide, by decide, by decide, h.2.2 (by decide)⟩

/-- C10: the event-list read is total at the storage boundary: when the
stored value is absent, the empty string, or fails to decode (a thrown
`JSON.parse`/shape error, caught by the surrounding try), `getEvents`
returns the empty list instead of propagating an exception. -/
theorem c10_getEvents_safe {α β : Type} (decode : List Char → Option (List α))
    (hydrate : α → β) (stored : Option (List Char))
    (h : stored = none ∨ stored = some [] ∨
         ∀ s, stored = some s → decode s = none) :
    getEventsFrom decode hydrate stored = [] := by
  rcases h with h | h | h
  · rw [h]; rfl
  · rw [h]; rfl
  · cases stored with
    | none => rfl
    | some s =>
      cases s with
      | nil => rfl
      | cons c t => simp [getEventsFrom, h (c :: t) rfl]

/-- Witness for C10 with a decoder that always fails. -/
theorem c10_witness :
    getEventsFrom (fun _ => (none : Option (List Nat))) (fun n => n)
      (some ['x']) = [] :=
  c10_getEvents_safe _ _ _ (Or.inr (Or.inr (fun _ _ => rfl)))

/-- C6: if the fetch fails, or the fetched document does not contain
`BEGIN:VCALENDAR`, the sync returns an error and both the event store and
the subscription list are completely unchanged (every `throw` in the source
happens before the first storage write). -/
theorem c6_sync_failure_preserves_store (fetched : Option (List Char))
    (sub : CalendarSubscription) (store : List CalendarEvent)
    (subs : List CalendarSubscription) (gen : Nat → List Char) (now : Int)
    (h : fetched = none ∨
         ∃ c, fetched = some c ∧ jsIncludes c vcalMarker = false) :
    ∃ err, syncSubscription fetched sub store subs gen now =
      (some err, store, subs) := by
  rcases h with h | ⟨c, hc, hmark⟩
  · exact ⟨SyncError.networkError, by rw [h]; rfl⟩
  · exact ⟨SyncError.invalidFormat, by rw [hc]; simp [syncSubscription, hmark]⟩

/-- Witness for C6: a fetched body without the marker leaves a concrete
store and subscription list untouched. -/
theorem c6_witness :
    ∃ err, syncSubscription (some ("hello").toList) demoSub
      [demoOtherEvent] [demoSub] demoGen 0 =
      (some err, [demoOtherEvent], [demoSub]) :=
  c6_sync_failure_preserves_store _ demoSub [demoOtherEvent] [demoSub] demoGen 0
    (Or.inr ⟨("hello").toList, rfl, by decide⟩)

/-- Every event appended by sequential `addEvent` calls keeps its draft's
`subscriptionUrl`. -/
theorem mem_addAll_subUrl (gen : Nat → List Char) (subId : List Char) :
    ∀ (drafts : List EventFormData),
      (∀ x ∈ drafts, x.subscriptionUrl = some subId) →
      ∀ k, ∀ a ∈ addAll gen k drafts, a.subscriptionUrl = some subId := by
  intro drafts
  induction drafts with
  | nil => intro _ k a ha; simp [addAll] at ha
  | cons fd rest ih =>
    intro h k a ha
    rw [addAll] at ha
    rcases List.mem_cons.1 ha with rfl | ha2
    · exact h fd (List.mem_cons_self fd rest)
    · exact ih (fun x hx => h x (List.mem_cons_of_mem fd hx)) (k + 1) a ha2

/-- Filtering for the linked subscription keeps every sequentially added
tagged draft. -/
theorem filter_eq_addAll (gen : Nat → List Char) (subId : List Char)
    (drafts : List EventFormData)
    (h : ∀ x ∈ drafts, x.subscriptionUrl = some subId) :
    ∀ k, (addAll gen k drafts).filter
      (fun e => e.subscriptionUrl = some subId) = addAll gen k drafts := by
  intro k
  exact List.filter_eq_self.mpr
    (fun a ha => by simp [mem_addAll_subUrl gen subId drafts h k a ha])

/-- Filtering the linked subscription out of sequentially added tagged
drafts leaves nothing. -/
theorem filter_ne_addAll (gen : Nat → List Char) (subId : List Char)
    (drafts : List EventFormData)
    (h : ∀ x ∈ drafts, x.subscriptionUrl = some subId) :
    ∀ k, (addAll gen k drafts).filter
      (fun e => e.subscriptionUrl ≠ some subId) = [] := by
  intro k
  exact List.filter_eq_nil_iff.mpr
    (fun a ha => by simp [mem_addAll_subUrl gen subId drafts h k a ha])

/-- Filtering for the linked subscription after filtering it out gives
nothing. -/
theorem filter_eq_after_ne (subId : List Char) (store : List CalendarEvent) :
    (store.filter (fun e => e.subscriptionUrl ≠ some subId)).filter
      (fun e => e.subscriptionUrl = some subId) = [] := by
  induction store with
  | nil => rfl
  | cons e rest ih =>
    by_cases h : e.subscriptionUrl = some subId <;> simp [List.filter, h, ih]

/-- Filtering out the linked subscription is idempotent. -/
theorem filter_ne_idem (subId : List Char) (store : List CalendarEvent) :
    (store.filter (fun e => e.subscriptionUrl ≠ some subId)).filter
      (fun e => e.subscriptionUrl ≠ some subId) =
    store.filter (fun e => e.subscriptionUrl ≠ some subId) := by
  induction store with
  | nil => rfl
  | cons e rest ih =>
    by_cases h : e.subscriptionUrl = some subId <;> simp [List.filter, h, ih]

/-- C5: running the replace-events step twice for the same subscription id
is the same as running only the second call, and the events linked to that
subscription afterwards are exactly the second call's drafts — nothing from
the first call accumulates or remains. -/
theorem c5_replace_twice (store : List CalendarEvent) (subId : List Char)
    (d1 d2 : List EventFormData) (g1 g2 : Nat → List Char)
    (h1 : ∀ x ∈ d1, x.subscriptionUrl = some subId)
    (h2 : ∀ x ∈ d2, x.subscriptionUrl = some subId) :
    replaceSubscriptionEvents (replaceSubscriptionEvents store subId d1 g1)
        subId d2 g2 = replaceSubscriptionEvents store subId d2 g2 ∧
    (replaceSubscriptionEvents (replaceSubscriptionEvents store subId d1 g1)
        subId d2 g2).filter (fun e => e.subscriptionUrl = some subId) =
      addAll g2 0 d2 := by
  constructor
  · unfold replaceSubscriptionEvents
    rw [List.filter_append, filter_ne_idem, filter_ne_addAll g1 subId d1 h1 0,
      List.append_nil]
  · unfold replaceSubscriptionEvents
    rw [List.filter_append, filter_eq_after_ne, List.nil_append]
    exact filter_eq_addAll g2 subId d2 h2 0

/-- Witness for C5 at a concrete store, subscription id and draft sets. -/
theorem c5_witness :
    replaceSubscriptionEvents (replaceSubscriptionEvents [demoOtherEvent] ['s']
        [demoLinkedDraft] demoGen) ['s'] [demoLinkedDraft] demoGen =
      replaceSubscriptionEvents [demoOtherEvent] ['s'] [demoLinkedDraft] demoGen ∧
    (replaceSubscriptionEvents (replaceSubscriptionEvents [demoOtherEvent] ['s']
        [demoLinkedDraft] demoGen) ['s'] [demoLinkedDraft] demoGen).filter
      (fun e => e.subscriptionUrl = some ['s']) =
      addAll demoGen 0 [demoLinkedDraft] :=
  c5_replace_twice [demoOtherEvent] ['s'] [demoLinkedDraft] [demoLinkedDraft]
    demoGen demoGen (by decide) (by decide)

theorem replace2_cons_ne (b : Char) (r : List Char) (x : Char) (t : List Char)
    (hx : x ≠ '\\') : replace2 '\\' b r (x :: t) = x :: replace2 '\\' b r t := by
  cases t with
  | nil => rfl
  | cons d rest =>
    simp only [replace2]
    rw [if_neg (by rintro ⟨h1, _⟩; exact hx h1)]

theorem replace2_bs_ne (b : Char) (r : List Char) (c : Char) (t : List Char)
    (hc : c ≠ b) :
    replace2 '\\' b r ('\\' :: c :: t) = '\\' :: replace2 '\\' b r (c :: t) := by
  simp only [replace2]
  rw [if_neg (by rintro ⟨_, h2⟩; exact hc h2)]

theorem replace2_bs_match (b : Char) (r : List Char) (t : List Char) :
    replace2 '\\' b r ('\\' :: b :: t) = r ++ replace2 '\\' b r t := by
  simp [replace2]

theorem unescapeValue_cons_ne (x : Char) (t : List Char) (hx : x ≠ '\\') :
    unescapeValue (x :: t) = x :: unescapeValue t := by
  unfold unescapeValue
  rw [replace2_cons_ne 'n' ['\n'] x t hx,
      replace2_cons_ne ',' [','] x _ hx,
      replace2_cons_ne ';' [';'] x _ hx,
      replace2_cons_ne '\\' ['\\'] x _ hx]

theorem unescapeValue_bs_n (t : List Char) :
    unescapeValue ('\\' :: 'n' :: t) = '\n' :: unescapeValue t := by
  unfold unescapeValue
  rw [replace2_bs_match 'n' ['\n'] t, List.singleton_append,
      replace2_cons_ne ',' [','] '\n' _ (by decide),
      replace2_cons_ne ';' [';'] '\n' _ (by decide),
      replace2_cons_ne '\\' ['\\'] '\n' _ (by decide)]

theorem unescapeValue_bs_comma (t : List Char) :
    unescapeValue ('\\' :: ',' :: t) = ',' :: unescapeValue t := by
  unfold unescapeValue
  rw [replace2_bs_ne 'n' ['\n'] ',' t (by decide),
      replace2_cons_ne 'n' ['\n'] ',' t (by decide),
      replace2_bs_match ',' [','] _, List.singleton_append,
      replace2_cons_ne ';' [';'] ',' _ (by decide),
      replace2_cons_ne '\\' ['\\'] ',' _ (by decide)]

theorem unescapeValue_bs_semi (t : List Char) :
    unescapeValue ('\\' :: ';' :: t) = ';' :: unescapeValue t := by
  unfold unescapeValue
  rw [replace2_bs_ne 'n' ['\n'] ';' t (by decide),
      replace2_cons_ne 'n' ['\n'] ';' t (by decide),
      replace2_bs_ne ',' [','] ';' _ (by decide),
      replace2_cons_ne ',' [','] ';' _ (by decide),
      replace2_bs_match ';' [';'] _, List.singleton_append,
      replace2_cons_ne '\\' ['\\'] ';' _ (by decide)]

theorem unescapeValue_bs_other (c : Char) (t : List Char)
    (h1 : c ≠ '\\') (h2 : c ≠ ',') (h3 : c ≠ ';') (h4 : c ≠ 'n') :
    unescapeValue ('\\' :: c :: t) = '\\' :: c :: unescapeValue t := by
  unfold unescapeValue
  rw [replace2_bs_ne 'n' ['\n'] c t h4,
      replace2_cons_ne 'n' ['\n'] c t h1,
      replace2_bs_ne ',' [','] c _ h2,
      replace2_cons_ne ',' [','] c _ h1,
      replace2_bs_ne ';' [';'] c _ h3,
      replace2_cons_ne ';' [';'] c _ h1,
      replace2_bs_ne '\\' ['\\'] c _ h1,
      replace2_cons_ne '\\' ['\\'] c _ h1]


theorem noBB_tail (x : Char) (t : List Char)
    (h : noDoubleBackslash (x :: t) = true) : noDoubleBackslash t = true := by
  cases t with
  | nil => rfl
  | cons c r =>
    simp only [noDoubleBackslash, Bool.and_eq_true] at h
    exact h.2

theorem noBB_head (c : Char) (r : List Char)
    (h : noDoubleBackslash ('\\' :: c :: r) = true) : c ≠ '\\' := by
  simp only [noDoubleBackslash, Bool.and_eq_true] at h
  have h1 := h.1
  intro hc
  subst hc
  simp at h1

theorem spec_cons_ne (x : Char) (t : List Char) (hx : x ≠ '\\') :
    specSinglePassUnescape (x :: t) = x :: specSinglePassUnescape t := by
  rw [specSinglePassUnescape.eq_def]
  simp [hx]

theorem spec_single (x : Char) : specSinglePassUnescape [x] = [x] := by
  by_cases hx : x = '\\'
  · subst hx; rfl
  · rw [spec_cons_ne x [] hx]; rfl

theorem spec_bs_comma (t : List Char) :
    specSinglePassUnescape ('\\' :: ',' :: t) = ',' :: specSinglePassUnescape t := by
  rw [specSinglePassUnescape.eq_def]
  simp

theorem spec_bs_semi (t : List Char) :
    specSinglePassUnescape ('\\' :: ';' :: t) = ';' :: specSinglePassUnescape t := by
  rw [specSinglePassUnescape.eq_def]
  simp

theorem spec_bs_n (t : List Char) :
    specSinglePassUnescape ('\\' :: 'n' :: t) = '\n' :: specSinglePassUnescape t := by
  rw [specSinglePassUnescape.eq_def]
  simp

theorem spec_bs_other (c : Char) (t : List Char)
    (h1 : c ≠ '\\') (h2 : c ≠ ',') (h3 : c ≠ ';') (h4 : c ≠ 'n') :
    specSinglePassUnescape ('\\' :: c :: t) = '\\' :: c :: specSinglePassUnescape t := by
  rw [specSinglePassUnescape.eq_def]
  simp [h1, h2, h3, h4]

theorem c2_agree_aux :
    ∀ (n : Nat) (s : List Char), s.length ≤ n → noDoubleBackslash s = true →
      unescapeValue s = specSinglePassUnescape s := by
  intro n
  induction n with
  | zero =>
    intro s hlen _
    have : s = [] := List.eq_nil_of_length_eq_zero (Nat.le_zero.1 hlen)
    subst this; rfl
  | succ n ih =>
    intro s hlen hbb
    rcases s with _ | ⟨x, t⟩
    · rfl
    rcases t with _ | ⟨c, rest⟩
    · rw [spec_single]; rfl
    by_cases hx : x = '\\'
    · subst hx
      have hc : c ≠ '\\' := noBB_head c rest hbb
      have hbb2 : noDoubleBackslash (c :: rest) = true := noBB_tail _ _ hbb
      have hbb3 : noDoubleBackslash rest = true := noBB_tail _ _ hbb2
      have hlen3 : rest.length ≤ n := by
        simp only [List.length_cons] at hlen; omega
      by_cases h1 : c = ','
      · subst h1
        rw [unescapeValue_bs_comma, ih rest hlen3 hbb3, spec_bs_comma]
      · by_cases h2 : c = ';'
        · subst h2
          rw [unescapeValue_bs_semi, ih rest hlen3 hbb3, spec_bs_semi]
        · by_cases h3 : c = 'n'
          · subst h3
            rw [unescapeValue_bs_n, ih rest hlen3 hbb3, spec_bs_n]
          · rw [unescapeValue_bs_other c rest hc h1 h2 h3,
                ih rest hlen3 hbb3, spec_bs_other c rest hc h1 h2 h3]
    · have hbb2 : noDoubleBackslash (c :: rest) = true := noBB_tail _ _ hbb
      have hlen2 : (c :: rest).length ≤ n := by
        simp only [List.length_cons] at hlen ⊢; omega
      rw [unescapeValue_cons_ne x _ hx, ih (c :: rest) hlen2 hbb2,
          spec_cons_ne x _ hx]

/-- C2, amended: `unescapeValue` applies four sequential global
replacements in the order `\n`, `\,`, `\;`, `\\` rather than one
left-to-right pass; on every value containing no two consecutive
backslashes this agrees with the single left-to-right pass that replaces
the four escape sequences and passes unknown escapes through unchanged
(on values with consecutive backslashes the two can differ, e.g. `\\n`). -/
theorem c2_amended_sequential_unescape (s : List Char)
    (hs : noDoubleBackslash s = true) :
    unescapeValue s = specSinglePassUnescape s :=
  c2_agree_aux s.length s (Nat.le_refl _) hs

/-- Witness for C2's amended theorem on a value exercising all four escape
sequences plus an unknown escape. -/
theorem c2_amended_witness :
    noDoubleBackslash ("a\\,b\\;c\\nd\\xe").toList = true ∧
    unescapeValue ("a\\,b\\;c\\nd\\xe").toList =
      specSinglePassUnescape ("a\\,b\\;c\\nd\\xe").toList :=
  ⟨by decide, c2_amended_sequential_unescape _ (by decide)⟩

theorem noCRLF_nil : noCRLF [] = true := rfl

theorem noCRLF_cons (c : Char) (l : List Char) :
    noCRLF (c :: l) = (!(c = '\r' ∨ c = '\n') && noCRLF l) := by
  simp [noCRLF, List.all_cons]

theorem splitLines_crlf (rest : List Char) :
    splitLines ('\r' :: '\n' :: rest) = [] :: splitLines rest := by
  rw [splitLines.eq_def]; simp

theorem splitLines_cr (c2 : Char) (rest2 : List Char) (h2 : ¬ c2 = '\n') :
    splitLines ('\r' :: c2 :: rest2) = [] :: splitLines (c2 :: rest2) := by
  rw [splitLines.eq_def]; simp [h2]

theorem splitLines_lf (rest : List Char) :
    splitLines ('\n' :: rest) = [] :: splitLines rest := by
  rw [splitLines.eq_def]; simp

theorem splitLines_cons_nil (c2 : Char) (rest2 : List Char) (hr : ¬ c2 = '\r')
    (hn : ¬ c2 = '\n') (heq : splitLines rest2 = []) :
    splitLines (c2 :: rest2) = [[c2]] := by
  rw [splitLines.eq_def]; simp [hr, hn, heq]

theorem splitLines_cons (c2 : Char) (rest2 : List Char) (hr : ¬ c2 = '\r')
    (hn : ¬ c2 = '\n') (l0 : List Char) (ls0 : List (List Char))
    (heq : splitLines rest2 = l0 :: ls0) :
    splitLines (c2 :: rest2) = (c2 :: l0) :: ls0 := by
  rw [splitLines.eq_def]; simp [hr, hn, heq]

theorem splitLines_noCRLF (x : List Char) :
    ∀ l ∈ splitLines x, noCRLF l = true := by
  induction x using splitLines.induct with
  | case1 =>
    intro l hl
    simp [splitLines] at hl
    simp [hl, noCRLF]
  | case2 ih =>
    intro l hl
    have : splitLines ['\r'] = [[], []] := by decide
    rw [this] at hl
    simp at hl
    simp [hl, noCRLF]
  | case3 rest2 ih =>
    intro l hl
    rw [splitLines_crlf] at hl
    rcases List.mem_cons.1 hl with rfl | hl
    · rfl
    · exact ih l hl
  | case4 c2 rest2 h2 ih =>
    intro l hl
    rw [splitLines_cr c2 rest2 h2] at hl
    rcases List.mem_cons.1 hl with rfl | hl
    · rfl
    · exact ih l hl
  | case5 rest2 hr ih =>
    intro l hl
    rw [splitLines_lf] at hl
    rcases List.mem_cons.1 hl with rfl | hl
    · rfl
    · exact ih l hl
  | case6 c2 rest2 hr hn heq ih =>
    intro l hl
    rw [splitLines_cons_nil c2 rest2 hr hn heq] at hl
    rcases List.mem_cons.1 hl with rfl | hl
    · simp [noCRLF_cons, hr, hn, noCRLF_nil]
    · simp at hl
  | case7 c2 rest2 hr hn l0 ls0 heq ih =>
    intro l hl
    rw [splitLines_cons c2 rest2 hr hn l0 ls0 heq] at hl
    rcases List.mem_cons.1 hl with rfl | hl
    · have h0 : noCRLF l0 = true :=
        ih l0 (by rw [heq]; exact List.mem_cons_self l0 ls0)
      simp [noCRLF_cons, hr, hn, h0]
    · exact ih l (by rw [heq]; exact List.mem_cons_of_mem l0 hl)

theorem splitLines_ne_nil (x : List Char) : splitLines x ≠ [] := by
  induction x using splitLines.induct with
  | case1 => simp [splitLines]
  | case2 ih => decide
  | case3 rest2 ih => rw [splitLines_crlf]; simp
  | case4 c2 rest2 h2 ih => rw [splitLines_cr c2 rest2 h2]; simp
  | case5 rest2 hr ih => rw [splitLines_lf]; simp
  | case6 c2 rest2 hr hn heq ih => rw [splitLines_cons_nil c2 rest2 hr hn heq]; simp
  | case7 c2 rest2 hr hn l0 ls0 heq ih =>
    rw [splitLines_cons c2 rest2 hr hn l0 ls0 heq]; simp

theorem splitLines_of_noCRLF (l : List Char) (h : noCRLF l = true) :
    splitLines l = [l] := by
  induction l with
  | nil => rfl
  | cons c t ih =>
    rw [noCRLF_cons, Bool.and_eq_true] at h
    have hc : ¬(c = '\r' ∨ c = '\n') := by
      have := h.1; simpa using this
    have ht := ih h.2
    exact splitLines_cons c t (fun hr => hc (Or.inl hr)) (fun hn => hc (Or.inr hn))
      t [] ht

theorem splitLines_append_lf (l : List Char) (h : noCRLF l = true)
    (rest : List Char) :
    splitLines (l ++ '\n' :: rest) = l :: splitLines rest := by
  induction l with
  | nil => simpa using splitLines_lf rest
  | cons c t ih =>
    rw [noCRLF_cons, Bool.and_eq_true] at h
    have hc : ¬(c = '\r' ∨ c = '\n') := by
      have := h.1; simpa using this
    have ht := ih h.2
    rw [List.cons_append]
    exact splitLines_cons c (t ++ '\n' :: rest) (fun hr => hc (Or.inl hr))
      (fun hn => hc (Or.inr hn)) t (splitLines rest) ht

theorem splitLines_joinNL (ls : List (List Char)) (hne : ls ≠ [])
    (h : ∀ l ∈ ls, noCRLF l = true) : splitLines (joinNL ls) = ls := by
  induction ls with
  | nil => exact absurd rfl hne
  | cons l rest ih =>
    cases rest with
    | nil =>
      show splitLines (joinNL [l]) = [l]
      rw [joinNL]
      exact splitLines_of_noCRLF l (h l (List.mem_cons_self l []))
    | cons l2 rest2 =>
      rw [joinNL]
      rw [splitLines_append_lf l (h l (List.mem_cons_self l _)) _]
      rw [ih (by simp) (fun x hx => h x (List.mem_cons_of_mem l hx))]

theorem unfoldGo_ne_nil (rest : List (List Char)) :
    ∀ cur, unfoldGo cur rest ≠ [] := by
  induction rest with
  | nil => intro cur; simp [unfoldGo]
  | cons next r ih =>
    intro cur
    rw [unfoldGo]
    by_cases hf : foldCont next
    · rw [if_pos hf]; exact ih _
    · rw [if_neg hf]; simp

theorem noCRLF_append (a b : List Char) (ha : noCRLF a = true)
    (hb : noCRLF b = true) : noCRLF (a ++ b) = true := by
  rw [noCRLF, List.all_append]
  rw [noCRLF] at ha hb
  rw [ha, hb]
  rfl

theorem noCRLF_drop (l : List Char) (h : noCRLF l = true) (n : Nat) :
    noCRLF (l.drop n) = true := by
  rw [noCRLF, List.all_eq_true]
  intro c hc
  rw [noCRLF, List.all_eq_true] at h
  exact h c (List.mem_of_mem_drop hc)

theorem unfoldGo_noCRLF (rest : List (List Char)) :
    ∀ cur, noCRLF cur = true → (∀ l ∈ rest, noCRLF l = true) →
      ∀ l ∈ unfoldGo cur rest, noCRLF l = true := by
  induction rest with
  | nil =>
    intro cur hcur _ l hl
    rw [unfoldGo] at hl
    simp at hl
    simp [hl, hcur]
  | cons next r ih =>
    intro cur hcur hrest l hl
    rw [unfoldGo] at hl
    by_cases hf : foldCont next
    · rw [if_pos hf] at hl
      exact ih _ (noCRLF_append cur _ hcur
          (noCRLF_drop next (hrest next (List.mem_cons_self next r)) 1))
        (fun x hx => hrest x (List.mem_cons_of_mem next hx)) l hl
    · rw [if_neg hf] at hl
      rcases List.mem_cons.1 hl with rfl | hl
      · exact hcur
      · exact ih next (hrest next (List.mem_cons_self next r))
          (fun x hx => hrest x (List.mem_cons_of_mem next hx)) l hl

theorem unfoldGo_fixed (rest : List (List Char))
    (h : ∀ l ∈ rest, foldCont l = false) :
    ∀ cur, unfoldGo cur rest = cur :: rest := by
  induction rest with
  | nil => intro cur; rfl
  | cons next r ih =>
    intro cur
    rw [unfoldGo]
    rw [if_neg (by rw [h next (List.mem_cons_self next r)]; simp)]
    rw [ih (fun x hx => h x (List.mem_cons_of_mem next hx)) next]

/-- C9, amended: applying the unfolding transformation to its own rejoined
output gives the same logical lines, provided no logical line after the
first in the once-unfolded output begins with a space or tab (in general
this can fail: a continuation line directly after an empty line can leave a
leading blank, see the counterexample). -/
theorem c9_amended_unfold_idempotent (x : List Char)
    (h : ∀ l ∈ (unfoldLines (splitLines x)).tail, foldCont l = false) :
    unfoldLines (splitLines (joinNL (unfoldLines (splitLines x)))) =
      unfoldLines (splitLines x) := by
  have hsn := splitLines_ne_nil x
  have hsc := splitLines_noCRLF x
  obtain ⟨l0, ls0, hx⟩ : ∃ l0 ls0, splitLines x = l0 :: ls0 := by
    cases hs : splitLines x with
    | nil => exact absurd hs hsn
    | cons a b => exact ⟨a, b, rfl⟩
  have hu : unfoldLines (splitLines x) = unfoldGo l0 ls0 := by
    rw [hx]; rfl
  have hune : unfoldLines (splitLines x) ≠ [] := by
    rw [hu]; exact unfoldGo_ne_nil ls0 l0
  have hucrlf : ∀ l ∈ unfoldLines (splitLines x), noCRLF l = true := by
    rw [hu]
    exact unfoldGo_noCRLF ls0 l0
      (hsc l0 (by rw [hx]; exact List.mem_cons_self l0 ls0))
      (fun l hl => hsc l (by rw [hx]; exact List.mem_cons_of_mem l0 hl))
  rw [splitLines_joinNL _ hune hucrlf]
  obtain ⟨u0, us0, hu2⟩ : ∃ u0 us0, unfoldLines (splitLines x) = u0 :: us0 := by
    cases hs : unfoldLines (splitLines x) with
    | nil => exact absurd hs hune
    | cons a b => exact ⟨a, b, rfl⟩
  rw [hu2, unfoldLines]
  have htail : ∀ l ∈ us0, foldCont l = false := by
    intro l hl
    apply h
    rw [hu2]
    exact hl
  exact unfoldGo_fixed us0 htail u0

/-- C9, counterexample: on input `"a\n\n  b"` the unfolded logical lines are
`["a", " b"]` (the continuation after the empty line re-introduces a leading
space), and unfolding the rejoined output merges them to `["ab"]`, so
unfolding is not idempotent. -/
theorem c9_counterexample :
    unfoldLines (splitLines ("a\n\n  b").toList) = [['a'], [' ', 'b']] ∧
    unfoldLines (splitLines (joinNL (unfoldLines
      (splitLines ("a\n\n  b").toList)))) = [['a', 'b']] ∧
    unfoldLines (splitLines (joinNL (unfoldLines
        (splitLines ("a\n\n  b").toList)))) ≠
      unfoldLines (splitLines ("a\n\n  b").toList) := by
  exact ⟨by decide, by decide, by decide⟩

/-- Witness for C9's amended theorem: a folded input whose unfolded output
has no leading blanks after the first line. -/
theorem c9_amended_witness :
    (∀ l ∈ (unfoldLines (splitLines ("A\r\n B\nC").toList)).tail,
      foldCont l = false) ∧
    unfoldLines (splitLines (joinNL (unfoldLines
        (splitLines ("A\r\n B\nC").toList)))) =
      unfoldLines (splitLines ("A\r\n B\nC").toList) :=
  ⟨by decide, c9_amended_unfold_idempotent _ (by decide)⟩

theorem digitChar_props (d : Nat) (hd : d < 10) :
    isWsChar (digitChar d) = false ∧ digitChar d ≠ '+' ∧ digitChar d ≠ '-' ∧
    isDecDigit (digitChar d) = true ∧ decVal (digitChar d) = d ∧
    digitChar d ≠ 'x' ∧ digitChar d ≠ 'X' ∧ digitChar d ≠ 'Z' := by
  interval_cases d <;> exact ⟨by decide, by decide, by decide, by decide,
    by decide, by decide, by decide, by decide⟩

theorem jsParseInt_digits (l : List Char) (hne : l ≠ [])
    (hd : ∀ c ∈ l, isDecDigit c = true ∧ c ≠ 'x' ∧ c ≠ 'X' ∧
          isWsChar c = false ∧ c ≠ '+' ∧ c ≠ '-') :
    jsParseInt l = some (Int.ofNat (digitsVal isDecDigit decVal 10 0 l)) := by
  cases l with
  | nil => exact absurd rfl hne
  | cons c rest =>
    obtain ⟨hdig, hx, hX, hws, hplus, hminus⟩ := hd c (List.mem_cons_self c rest)
    have hdw : (c :: rest).dropWhile isWsChar = c :: rest := by
      rw [List.dropWhile_cons, hws]
      simp
    rw [jsParseInt, hdw]
    simp only []
    rw [if_neg hplus, if_neg hminus]
    cases rest with
    | nil =>
      rw [parseUnsigned.eq_def]
      simp only []
      rw [if_pos hdig]
      rfl
    | cons c2 rest2 =>
      obtain ⟨_, hx2, hX2, _, _, _⟩ :=
        hd c2 (List.mem_cons_of_mem c (List.mem_cons_self c2 rest2))
      rw [parseUnsigned.eq_def]
      simp only []
      rw [if_neg (by rintro ⟨_, h | h⟩; exact hx2 h; exact hX2 h)]
      rw [if_pos hdig]
      rfl

theorem digitsVal_pad2 (n : Nat) (hn : n < 100) :
    digitsVal isDecDigit decVal 10 0 (pad2 n) = n := by
  obtain ⟨_, _, _, pd1, pv1, _, _, _⟩ :=
    digitChar_props (n / 10 % 10) (Nat.mod_lt _ (by norm_num))
  obtain ⟨_, _, _, pd2, pv2, _, _, _⟩ :=
    digitChar_props (n % 10) (Nat.mod_lt _ (by norm_num))
  rw [pad2, digitsVal, if_pos pd1, digitsVal, if_pos pd2, digitsVal]
  rw [pv1, pv2]
  omega

theorem digitsVal_pad4 (n : Nat) (hn : n < 10000) :
    digitsVal isDecDigit decVal 10 0 (pad4 n) = n := by
  obtain ⟨_, _, _, pd1, pv1, _, _, _⟩ :=
    digitChar_props (n / 1000 % 10) (Nat.mod_lt _ (by norm_num))
  obtain ⟨_, _, _, pd2, pv2, _, _, _⟩ :=
    digitChar_props (n / 100 % 10) (Nat.mod_lt _ (by norm_num))
  obtain ⟨_, _, _, pd3, pv3, _, _, _⟩ :=
    digitChar_props (n / 10 % 10) (Nat.mod_lt _ (by norm_num))
  obtain ⟨_, _, _, pd4, pv4, _, _, _⟩ :=
    digitChar_props (n % 10) (Nat.mod_lt _ (by norm_num))
  rw [pad4, digitsVal, if_pos pd1, digitsVal, if_pos pd2, digitsVal, if_pos pd3,
      digitsVal, if_pos pd4, digitsVal]
  rw [pv1, pv2, pv3, pv4]
  omega

theorem mem_pad2 (n : Nat) (c : Char) (hc : c ∈ pad2 n) :
    ∃ d, d < 10 ∧ c = digitChar d := by
  rw [pad2] at hc
  simp at hc
  rcases hc with h | h
  · exact ⟨n / 10 % 10, Nat.mod_lt _ (by norm_num), h⟩
  · exact ⟨n % 10, Nat.mod_lt _ (by norm_num), h⟩

theorem mem_pad4 (n : Nat) (c : Char) (hc : c ∈ pad4 n) :
    ∃ d, d < 10 ∧ c = digitChar d := by
  rw [pad4] at hc
  simp at hc
  rcases hc with h | h | h | h
  · exact ⟨n / 1000 % 10, Nat.mod_lt _ (by norm_num), h⟩
  · exact ⟨n / 100 % 10, Nat.mod_lt _ (by norm_num), h⟩
  · exact ⟨n / 10 % 10, Nat.mod_lt _ (by norm_num), h⟩
  · exact ⟨n % 10, Nat.mod_lt _ (by norm_num), h⟩

theorem jsParseInt_pad2 (n : Nat) (hn : n < 100) :
    jsParseInt (pad2 n) = some (n : Int) := by
  rw [jsParseInt_digits (pad2 n) (by rw [pad2]; simp)
    (fun c hc => by
      obtain ⟨dd, hdd, rfl⟩ := mem_pad2 n c hc
      obtain ⟨pw, pp, pm, pd, _, px, pX, _⟩ := digitChar_props dd hdd
      exact ⟨pd, px, pX, pw, pp, pm⟩)]
  rw [digitsVal_pad2 n hn]
  rfl

theorem jsParseInt_pad4 (n : Nat) (hn : n < 10000) :
    jsParseInt (pad4 n) = some (n : Int) := by
  rw [jsParseInt_digits (pad4 n) (by rw [pad4]; simp)
    (fun c hc => by
      obtain ⟨dd, hdd, rfl⟩ := mem_pad4 n c hc
      obtain ⟨pw, pp, pm, pd, _, px, pX, _⟩ := digitChar_props dd hdd
      exact ⟨pd, px, pX, pw, pp, pm⟩)]
  rw [digitsVal_pad4 n hn]
  rfl

theorem jsSubstring_of_append (A B C : List Char) (a b : Nat)
    (hab : a ≤ b) (hA : A.length = a) (hAB : (A ++ B).length = b) :
    jsSubstring ((A ++ B) ++ C) a b = B := by
  rw [jsSubstring, Nat.max_eq_right hab, Nat.min_eq_left hab]
  rw [List.take_left' hAB, List.drop_left' hA]

theorem slice_dt_0_4 (y mo d h mi s : Nat) (suf : List Char) :
    jsSubstring (dtToken y mo d h mi s ++ suf) 0 4 = pad4 y := by
  have hT : dtToken y mo d h mi s ++ suf = (([] ++ pad4 y) ++
      (pad2 mo ++ (pad2 d ++ ('T' :: (pad2 h ++ (pad2 mi ++ pad2 s)))) ++ suf)) := by
    simp [dtToken]
  rw [hT, jsSubstring_of_append _ _ _ 0 4 (by norm_num) (by simp) (by simp [pad4])]

theorem slice_dt_4_6 (y mo d h mi s : Nat) (suf : List Char) :
    jsSubstring (dtToken y mo d h mi s ++ suf) 4 6 = pad2 mo := by
  have hT : dtToken y mo d h mi s ++ suf = ((pad4 y ++ pad2 mo) ++
      (pad2 d ++ ('T' :: (pad2 h ++ (pad2 mi ++ pad2 s))) ++ suf)) := by
    simp [dtToken]
  rw [hT, jsSubstring_of_append _ _ _ 4 6 (by norm_num) (by simp [pad4])
    (by simp [pad4, pad2])]

theorem slice_dt_6_8 (y mo d h mi s : Nat) (suf : List Char) :
    jsSubstring (dtToken y mo d h mi s ++ suf) 6 8 = pad2 d := by
  have hT : dtToken y mo d h mi s ++ suf = (((pad4 y ++ pad2 mo) ++ pad2 d) ++
      (('T' :: (pad2 h ++ (pad2 mi ++ pad2 s))) ++ suf)) := by
    simp [dtToken]
  rw [hT, jsSubstring_of_append _ _ _ 6 8 (by norm_num) (by simp [pad4, pad2])
    (by simp [pad4, pad2])]

theorem slice_dt_9_11 (y mo d h mi s : Nat) (suf : List Char) :
    jsSubstring (dtToken y mo d h mi s ++ suf) 9 11 = pad2 h := by
  have hT : dtToken y mo d h mi s ++ suf =
      ((((pad4 y ++ pad2 mo) ++ pad2 d ++ ['T']) ++ pad2 h) ++
        ((pad2 mi ++ pad2 s) ++ suf)) := by
    simp [dtToken]
  rw [hT, jsSubstring_of_append _ _ _ 9 11 (by norm_num)
    (by simp [pad4, pad2]) (by simp [pad4, pad2])]

theorem slice_dt_11_13 (y mo d h mi s : Nat) (suf : List Char) :
    jsSubstring (dtToken y mo d h mi s ++ suf) 11 13 = pad2 mi := by
  have hT : dtToken y mo d h mi s ++ suf =
      ((((pad4 y ++ pad2 mo) ++ pad2 d ++ ['T'] ++ pad2 h) ++ pad2 mi) ++
        (pad2 s ++ suf)) := by
    simp [dtToken]
  rw [hT, jsSubstring_of_append _ _ _ 11 13 (by norm_num)
    (by simp [pad4, pad2]) (by simp [pad4, pad2])]

theorem slice_dt_13_15 (y mo d h mi s : Nat) (suf : List Char) :
    jsSubstring (dtToken y mo d h mi s ++ suf) 13 15 = pad2 s := by
  have hT : dtToken y mo d h mi s ++ suf =
      ((((pad4 y ++ pad2 mo) ++ pad2 d ++ ['T'] ++ pad2 h ++ pad2 mi) ++ pad2 s) ++
        suf) := by
    simp [dtToken]
  rw [hT, jsSubstring_of_append _ _ _ 13 15 (by norm_num)
    (by simp [pad4, pad2]) (by simp [pad4, pad2])]

theorem jsEndsWith_dtToken_Z (y mo d h mi s : Nat) :
    jsEndsWith (dtToken y mo d h mi s ++ ['Z']) 'Z' = true := by
  rw [jsEndsWith, List.getLast?_concat]
  simp

theorem jsEndsWith_dtToken_noZ (y mo d h mi s : Nat) :
    jsEndsWith (dtToken y mo d h mi s) 'Z' = false := by
  obtain ⟨_, _, _, _, _, _, _, pZ⟩ :=
    digitChar_props (s % 10) (Nat.mod_lt _ (by norm_num))
  have hT : dtToken y mo d h mi s =
      ((pad4 y ++ pad2 mo ++ pad2 d ++ ['T'] ++ pad2 h ++ pad2 mi ++
        [digitChar (s / 10 % 10)]) ++ [digitChar (s % 10)]) := by
    simp [dtToken, pad2]
  rw [hT, jsEndsWith, List.getLast?_concat]
  simp [pZ]

/-- C3: for every well-formed 15-character date-time token, decoding the
token followed by a literal `Z` constructs a UTC instant with exactly those
wall-clock fields (month converted to the 0-based `Date` argument), and
decoding the same token without the `Z` constructs an instant in the
ambient local timezone with the same wall-clock fields. -/
theorem c3_datetime_utc_vs_local (y mo d h mi s : Nat)
    (params : List (List Char))
    (hy : y ≤ 9999) (hmo1 : 1 ≤ mo) (hmo : mo ≤ 12) (hd1 : 1 ≤ d) (hd : d ≤ 31)
    (hh : h ≤ 23) (hmi : mi ≤ 59) (hs : s ≤ 59)
    (hp : isDateOnlyParam params = false) :
    parseICalDate (dtToken y mo d h mi s ++ ['Z']) params =
      JSDate.utcD (some (y : Int)) (some ((mo : Int) - 1)) (some (d : Int))
        (some (h : Int)) (some (mi : Int)) (some (s : Int)) ∧
    wallClockOf (parseICalDate (dtToken y mo d h mi s ++ ['Z']) params) =
      some (⟨(y : Int), (mo : Int), (d : Int), (h : Int), (mi : Int), (s : Int)⟩,
        TimeRef.utc) ∧
    parseICalDate (dtToken y mo d h mi s) params =
      JSDate.localD (some (y : Int)) (some ((mo : Int) - 1)) (some (d : Int))
        (some (h : Int)) (some (mi : Int)) (some (s : Int)) ∧
    wallClockOf (parseICalDate (dtToken y mo d h mi s) params) =
      some (⟨(y : Int), (mo : Int), (d : Int), (h : Int), (mi : Int), (s : Int)⟩,
        TimeRef.localT) := by
  have e04 := slice_dt_0_4 y mo d h mi s
  have e46 := slice_dt_4_6 y mo d h mi s
  have e68 := slice_dt_6_8 y mo d h mi s
  have e911 := slice_dt_9_11 y mo d h mi s
  have e1113 := slice_dt_11_13 y mo d h mi s
  have e1315 := slice_dt_13_15 y mo d h mi s
  have hTnosuf : dtToken y mo d h mi s ++ ([] : List Char) =
      dtToken y mo d h mi s := by simp
  have hpy := jsParseInt_pad4 y (by omega)
  have hpmo := jsParseInt_pad2 mo (by omega)
  have hpd := jsParseInt_pad2 d (by omega)
  have hph := jsParseInt_pad2 h (by omega)
  have hpmi := jsParseInt_pad2 mi (by omega)
  have hps := jsParseInt_pad2 s (by omega)
  have hz := jsEndsWith_dtToken_Z y mo d h mi s
  have hnz := jsEndsWith_dtToken_noZ y mo d h mi s
  have hparseZ : parseICalDate (dtToken y mo d h mi s ++ ['Z']) params =
      JSDate.utcD (some (y : Int)) (some ((mo : Int) - 1)) (some (d : Int))
        (some (h : Int)) (some (mi : Int)) (some (s : Int)) := by
    rw [parseICalDate]
    rw [e04 ['Z'], e46 ['Z'], e68 ['Z'], e911 ['Z'], e1113 ['Z'], e1315 ['Z']]
    rw [hpy, hpmo, hpd, hph, hpmi, hps, hp, hz]
    simp [jsSub1, jsOr0]
  have hparseL : parseICalDate (dtToken y mo d h mi s) params =
      JSDate.localD (some (y : Int)) (some ((mo : Int) - 1)) (some (d : Int))
        (some (h : Int)) (some (mi : Int)) (some (s : Int)) := by
    rw [parseICalDate]
    rw [← hTnosuf, e04 [], e46 [], e68 [], e911 [], e1113 [], e1315 []]
    rw [hpy, hpmo, hpd, hph, hpmi, hps, hp, hTnosuf, hnz]
    simp [jsSub1, jsOr0]
  refine ⟨hparseZ, ?_, hparseL, ?_⟩
  · rw [hparseZ, wallClockOf]
    simp [Int.sub_add_cancel]
  · rw [hparseL, wallClockOf]
    simp [Int.sub_add_cancel]

/-- Witness for C3 at the spec's example token `20250615T090000`. -/
theorem c3_witness :
    dtToken 2025 6 15 9 0 0 = ("20250615T090000").toList ∧
    parseICalDate (dtToken 2025 6 15 9 0 0 ++ ['Z']) [] =
      JSDate.utcD (some 2025) (some 5) (some 15) (some 9) (some 0) (some 0) ∧
    parseICalDate (dtToken 2025 6 15 9 0 0) [] =
      JSDate.localD (some 2025) (some 5) (some 15) (some 9) (some 0) (some 0) := by
  have h := c3_datetime_utc_vs_local 2025 6 15 9 0 0 []
    (by norm_num) (by norm_num) (by norm_num) (by norm_num) (by norm_num)
    (by norm_num) (by norm_num) (by norm_num) (by decide)
  refine ⟨by decide, ?_, ?_⟩
  · rw [h.1]; decide
  · rw [h.2.2.1]; decide


theorem stepLines_cons_none (tag : EventFormData) (line : List Char)
    (rest : List (List Char)) :
    stepLines tag (line :: rest) none =
      if line = beginVEVENT then stepLines tag rest (some tag)
      else stepLines tag rest none := by
  rw [stepLines.eq_def]

theorem stepLines_cons_some (tag : EventFormData) (line : List Char)
    (rest : List (List Char)) (d : EventFormData) :
    stepLines tag (line :: rest) (some d) =
      if line = beginVEVENT then stepLines tag rest (some tag)
      else if line = endVEVENT then
        (if draftValid d then [d] else []) ++ stepLines tag rest none
      else stepLines tag rest (some (applyProp line d)) := by
  rw [stepLines.eq_def]

theorem stateAfter_cons_none (tag : EventFormData) (line : List Char)
    (rest : List (List Char)) :
    stateAfter tag (line :: rest) none =
      if line = beginVEVENT then stateAfter tag rest (some tag)
      else stateAfter tag rest none := by
  rw [stateAfter.eq_def]

theorem stateAfter_cons_some (tag : EventFormData) (line : List Char)
    (rest : List (List Char)) (d : EventFormData) :
    stateAfter tag (line :: rest) (some d) =
      if line = beginVEVENT then stateAfter tag rest (some tag)
      else if line = endVEVENT then stateAfter tag rest none
      else stateAfter tag rest (some (applyProp line d)) := by
  rw [stateAfter.eq_def]

theorem stepLines_append (tag : EventFormData) (l1 l2 : List (List Char)) :
    ∀ st, stepLines tag (l1 ++ l2) st =
      stepLines tag l1 st ++ stepLines tag l2 (stateAfter tag l1 st) := by
  induction l1 with
  | nil => intro st; rfl
  | cons line rest ih =>
    intro st
    cases st with
    | none =>
      rw [List.cons_append, stepLines_cons_none, stepLines_cons_none,
        stateAfter_cons_none]
      by_cases hB : line = beginVEVENT
      · rw [if_pos hB, if_pos hB, if_pos hB]
        exact ih (some tag)
      · rw [if_neg hB, if_neg hB, if_neg hB]
        exact ih none
    | some dd =>
      rw [List.cons_append, stepLines_cons_some, stepLines_cons_some,
        stateAfter_cons_some]
      by_cases hB : line = beginVEVENT
      · rw [if_pos hB, if_pos hB, if_pos hB]
        exact ih (some tag)
      · rw [if_neg hB, if_neg hB, if_neg hB]
        by_cases hEq : line = endVEVENT
        · rw [if_pos hEq, if_pos hEq, if_pos hEq, ih none, List.append_assoc]
        · rw [if_neg hEq, if_neg hEq, if_neg hEq]
          exact ih (some (applyProp line dd))

theorem stepLines_no_end (tag : EventFormData) (lines : List (List Char)) :
    ∀ st, endVEVENT ∉ lines → stepLines tag lines st = [] := by
  induction lines with
  | nil => intro st _; rfl
  | cons line rest ih =>
    intro st h
    have hline : line ≠ endVEVENT := by
      intro hq; exact h (hq ▸ List.mem_cons_self line rest)
    have hrest : endVEVENT ∉ rest := fun hq => h (List.mem_cons_of_mem line hq)
    cases st with
    | none =>
      rw [stepLines_cons_none]
      by_cases hB : line = beginVEVENT
      · rw [if_pos hB]; exact ih (some tag) hrest
      · rw [if_neg hB]; exact ih none hrest
    | some dd =>
      rw [stepLines_cons_some]
      by_cases hB : line = beginVEVENT
      · rw [if_pos hB]; exact ih (some tag) hrest
      · rw [if_neg hB, if_neg hline]
        exact ih (some (applyProp line dd)) hrest

theorem stepLines_body (tag : EventFormData) (body : List (List Char)) :
    ∀ d, beginVEVENT ∉ body → endVEVENT ∉ body →
      stepLines tag body (some d) = [] ∧
      stateAfter tag body (some d) = some (foldBlock d body) := by
  induction body with
  | nil => intro d _ _; exact ⟨rfl, rfl⟩
  | cons line rest ih =>
    intro d hB hE
    have hlB : line ≠ beginVEVENT := by
      intro hq; exact hB (hq ▸ List.mem_cons_self line rest)
    have hlE : line ≠ endVEVENT := by
      intro hq; exact hE (hq ▸ List.mem_cons_self line rest)
    have hrB : beginVEVENT ∉ rest := fun hq => hB (List.mem_cons_of_mem line hq)
    have hrE : endVEVENT ∉ rest := fun hq => hE (List.mem_cons_of_mem line hq)
    rw [stepLines_cons_some, stateAfter_cons_some, if_neg hlB, if_neg hlB,
      if_neg hlE, if_neg hlE]
    obtain ⟨h1, h2⟩ := ih (applyProp line d) hrB hrE
    exact ⟨h1, by rw [h2]; rfl⟩

theorem applyProp_title (line : List Char) (d : EventFormData) :
    (applyProp line d).title =
      match lineSummaryValue line with
      | some v => some (unescapeValue v)
      | none => d.title := by
  rw [applyProp, lineSummaryValue]
  cases jsIndexOfColon line with
  | none => rfl
  | some i =>
    simp only []
    by_cases hS : ((jsSubstring line 0 i).splitOn ';').headD [] = "SUMMARY".toList
    · rw [if_pos hS, if_pos hS]
    · rw [if_neg hS, if_neg hS]
      split_ifs <;> rfl

theorem applyProp_startDate (line : List Char) (d : EventFormData) :
    (applyProp line d).startDate.isSome =
      (lineIsDTSTART line || d.startDate.isSome) := by
  rw [applyProp, lineIsDTSTART]
  cases jsIndexOfColon line with
  | none => simp
  | some i =>
    simp only []
    by_cases hS : ((jsSubstring line 0 i).splitOn ';').headD [] = "SUMMARY".toList
    · have hne : ((jsSubstring line 0 i).splitOn ';').headD [] ≠ "DTSTART".toList := by
        rw [hS]; decide
      rw [if_pos hS, decide_eq_false hne, Bool.false_or]
    · rw [if_neg hS]
      by_cases hD2 : ((jsSubstring line 0 i).splitOn ';').headD [] = "DESCRIPTION".toList
      · have hne : ((jsSubstring line 0 i).splitOn ';').headD [] ≠ "DTSTART".toList := by
          rw [hD2]; decide
        rw [if_pos hD2, decide_eq_false hne, Bool.false_or]
      · rw [if_neg hD2]
        by_cases hDT : ((jsSubstring line 0 i).splitOn ';').headD [] = "DTSTART".toList
        · rw [if_pos hDT, decide_eq_true hDT, Bool.true_or]
          rfl
        · rw [if_neg hDT, decide_eq_false hDT, Bool.false_or]
          split_ifs <;> rfl

theorem blockSummary_foldl_acc (rest : List (List Char)) :
    ∀ acc, rest.foldl
        (fun a l => match lineSummaryValue l with
                    | some v => some v
                    | none => a) acc =
      match blockSummary rest with
      | some v => some v
      | none => acc := by
  induction rest with
  | nil => intro acc; rfl
  | cons l r ih =>
    intro acc
    rw [blockSummary, List.foldl_cons, List.foldl_cons, ih, ih]
    cases hv : lineSummaryValue l <;> cases blockSummary r <;> rfl

theorem blockSummary_cons (line : List Char) (rest : List (List Char)) :
    blockSummary (line :: rest) =
      match blockSummary rest with
      | some v => some v
      | none => lineSummaryValue line := by
  rw [blockSummary, List.foldl_cons, blockSummary_foldl_acc]
  cases blockSummary rest <;> cases hv : lineSummaryValue line <;> simp [hv]

theorem foldBlock_cons (line : List Char) (rest : List (List Char))
    (d : EventFormData) :
    foldBlock d (line :: rest) = foldBlock (applyProp line d) rest := rfl

theorem foldBlock_title (body : List (List Char)) :
    ∀ d, (foldBlock d body).title =
      match blockSummary body with
      | some v => some (unescapeValue v)
      | none => d.title := by
  induction body with
  | nil => intro d; rfl
  | cons line rest ih =>
    intro d
    rw [foldBlock_cons, ih (applyProp line d), blockSummary_cons,
      applyProp_title]
    cases blockSummary rest <;> cases hv : lineSummaryValue line <;> simp [hv]

theorem blockHasDTSTART_cons (line : List Char) (rest : List (List Char)) :
    blockHasDTSTART (line :: rest) =
      (lineIsDTSTART line || blockHasDTSTART rest) := by
  rw [blockHasDTSTART, List.any_cons]
  rfl

theorem foldBlock_startDate (body : List (List Char)) :
    ∀ d, (foldBlock d body).startDate.isSome =
      (blockHasDTSTART body || d.startDate.isSome) := by
  induction body with
  | nil => intro d; rfl
  | cons line rest ih =>
    intro d
    rw [foldBlock_cons, ih (applyProp line d), applyProp_startDate,
      blockHasDTSTART_cons]
    cases lineIsDTSTART line <;> cases blockHasDTSTART rest <;>
      cases d.startDate.isSome <;> rfl

theorem replace2_ne_nil (a b : Char) (r : List Char) (hr : r ≠ []) :
    ∀ s : List Char, s ≠ [] → replace2 a b r s ≠ [] := by
  intro s
  cases s with
  | nil => intro h; exact absurd rfl h
  | cons c t =>
    intro _
    cases t with
    | nil => simp [replace2]
    | cons d2 rest =>
      rw [replace2]
      by_cases hm : c = a ∧ d2 = b
      · rw [if_pos hm]
        simp [hr]
      · rw [if_neg hm]
        simp

theorem unescapeValue_ne_nil (v : List Char) (hv : v ≠ []) :
    unescapeValue v ≠ [] := by
  rw [unescapeValue]
  apply replace2_ne_nil _ _ _ (by simp)
  apply replace2_ne_nil _ _ _ (by simp)
  apply replace2_ne_nil _ _ _ (by simp)
  apply replace2_ne_nil _ _ _ (by simp)
  exact hv

theorem truthyStr_unescape (v : List Char) :
    truthyStr (some (unescapeValue v)) = (v ≠ [] : Bool) := by
  by_cases hv : v = []
  · subst hv
    simp [truthyStr, unescapeValue, replace2]
  · have := unescapeValue_ne_nil v hv
    simp [truthyStr, this, hv]

theorem foldBlock_truthy (body : List (List Char)) (tag : EventFormData)
    (htag : tag.title = none) :
    truthyStr (foldBlock tag body).title = blockHasNonEmptySummary body := by
  rw [foldBlock_title body tag, blockHasNonEmptySummary]
  cases hb : blockSummary body with
  | none => simp [htag, truthyStr]
  | some v => simp only []; exact truthyStr_unescape v

theorem draftValid_foldBlock (body : List (List Char)) (tag : EventFormData)
    (htitle : tag.title = none) (hstart : tag.startDate = none) :
    draftValid (foldBlock tag body) =
      (blockHasNonEmptySummary body && blockHasDTSTART body) := by
  rw [draftValid, foldBlock_truthy body tag htitle, foldBlock_startDate body tag,
    hstart]
  cases blockHasNonEmptySummary body <;> cases blockHasDTSTART body <;> rfl

theorem stepLines_block (tag : EventFormData) (body post : List (List Char))
    (hB : beginVEVENT ∉ body) (hE : endVEVENT ∉ body) :
    ∀ st, stepLines tag (beginVEVENT :: (body ++ endVEVENT :: post)) st =
      (if draftValid (foldBlock tag body) then [foldBlock tag body] else []) ++
        stepLines tag post none := by
  have hBE : beginVEVENT ≠ endVEVENT := by decide
  have hEB : endVEVENT ≠ beginVEVENT := by decide
  have main : stepLines tag (body ++ endVEVENT :: post) (some tag) =
      (if draftValid (foldBlock tag body) then [foldBlock tag body] else []) ++
        stepLines tag post none := by
    rw [stepLines_append tag body (endVEVENT :: post) (some tag)]
    obtain ⟨h1, h2⟩ := stepLines_body tag body tag hB hE
    rw [h1, h2, List.nil_append, stepLines_cons_some, if_neg hEB, if_pos rfl]
  intro st
  cases st with
  | none => rw [stepLines_cons_none, if_pos rfl, main]
  | some dd => rw [stepLines_cons_some, if_pos rfl, main]

/-- C4: for every document decomposed around an event block
`BEGIN:VEVENT, body, END:VEVENT` (the body containing neither marker), the
parser's output is the events of the prefix, then the block's contribution,
then the events of the suffix; the block contributes exactly one event —
whose title and startDate are populated — when its effective (last)
`SUMMARY` is non-empty and it carries a `DTSTART`, and zero events when
either is missing; and a `BEGIN:VEVENT` never matched by an `END:VEVENT`
before end of input contributes zero events. -/
theorem c4_event_block_semantics (subscriptionId color : Option (List Char))
    (pre body post : List (List Char))
    (hB : beginVEVENT ∉ body) (hE : endVEVENT ∉ body) :
    stepLines (initialDraft subscriptionId color)
        (pre ++ beginVEVENT :: (body ++ endVEVENT :: post)) none =
      stepLines (initialDraft subscriptionId color) pre none ++
        (if blockHasNonEmptySummary body && blockHasDTSTART body
          then [foldBlock (initialDraft subscriptionId color) body] else []) ++
        stepLines (initialDraft subscriptionId color) post none ∧
    (blockHasNonEmptySummary body = true → blockHasDTSTART body = true →
      truthyStr (foldBlock (initialDraft subscriptionId color) body).title = true ∧
      (foldBlock (initialDraft subscriptionId color) body).startDate.isSome = true) ∧
    (∀ body2, endVEVENT ∉ body2 →
      stepLines (initialDraft subscriptionId color)
        (pre ++ beginVEVENT :: body2) none =
      stepLines (initialDraft subscriptionId color) pre none) := by
  refine ⟨?_, ?_, ?_⟩
  · rw [stepLines_append _ pre _ none,
      stepLines_block _ body post hB hE
        (stateAfter (initialDraft subscriptionId color) pre none),
      draftValid_foldBlock body _ rfl rfl, List.append_assoc]
  · intro hs hd
    constructor
    · rw [foldBlock_truthy body _ rfl, hs]
    · rw [foldBlock_startDate body _, hd]
      rfl
  · intro body2 hE2
    rw [stepLines_append _ pre _ none]
    have : stepLines (initialDraft subscriptionId color)
        (beginVEVENT :: body2)
        (stateAfter (initialDraft subscriptionId color) pre none) = [] := by
      apply stepLines_no_end
      intro hmem
      rcases List.mem_cons.1 hmem with heq | hmem2
      · exact absurd heq.symm (by decide)
      · exact hE2 hmem2
    rw [this, List.append_nil]

/-- Witness for C4 on a concrete two-line block. -/
theorem c4_witness :
    beginVEVENT ∉ [("SUMMARY:Exam").toList, ("DTSTART:20250101").toList] ∧
    stepLines (initialDraft none none)
        ([] ++ beginVEVENT ::
          ([("SUMMARY:Exam").toList, ("DTSTART:20250101").toList] ++
            endVEVENT :: [])) none =
      stepLines (initialDraft none none) [] none ++
        (if blockHasNonEmptySummary
              [("SUMMARY:Exam").toList, ("DTSTART:20250101").toList] &&
            blockHasDTSTART
              [("SUMMARY:Exam").toList, ("DTSTART:20250101").toList]
          then [foldBlock (initialDraft none none)
              [("SUMMARY:Exam").toList, ("DTSTART:20250101").toList]] else []) ++
        stepLines (initialDraft none none) [] none :=
  ⟨by decide,
    (c4_event_block_semantics none none []
      [("SUMMARY:Exam").toList, ("DTSTART:20250101").toList] []
      (by decide) (by decide)).1⟩
